import Mathlib

/-!
Shallow embedding of the ethicalmeat-db classification core:
`src/foodrepo/filters.py`, `src/foodrepo/classifier.py` and
`src/utils/mapping.py`.

Modelling conventions: Python strings are `String` / `List Char`; Python
floats are `ℚ`; Python dicts are association lists with replace-on-insert
(`dinsert`); product records are functions from field names to optional
values (`Rec`).  `re.IGNORECASE` matching is modelled by lowering the text
once and writing the patterns in lower case.  Python `print` logging and the
statistics dictionaries that are only printed are not modelled.  A Python
code path that raises an uncaught exception is modelled as `Option.none`
(or as `PResult.exn` for the response parser).
-/

namespace EthicalMeat

/-- Python `str.lower` for the characters appearing in this repository:
ASCII case mapping plus the German umlauts used in the keyword sets. -/
def lowCh (c : Char) : Char :=
  if c = 'Ä' then 'ä' else if c = 'Ö' then 'ö' else if c = 'Ü' then 'ü'
  else c.toLower

/-- Python regex word character (`\w` with `re.UNICODE`): ASCII alphanumerics
and underscore; non-ASCII characters (in scope: accented letters) are word
characters. -/
def isWordChar (c : Char) : Bool :=
  c.isAlphanum || c = '_' || decide (127 < c.toNat)

/-- Python whitespace (`\s` and `str.strip` / `str.isspace`). -/
def isSpaceCh (c : Char) : Bool :=
  c = ' ' || c = '\t' || c = '\n' || c = '\r' || c = '\x0b' || c = '\x0c'

def lowL (s : List Char) : List Char := s.map lowCh

def lowS (s : String) : String := String.mk (lowL s.data)

def stripL (s : List Char) : List Char :=
  ((s.dropWhile isSpaceCh).reverse.dropWhile isSpaceCh).reverse

def stripS (s : String) : String := String.mk (stripL s.data)

/-- List prefix test (the literal part of a regex match at a position). -/
def lpre : List Char → List Char → Bool
  | [], _ => true
  | _ :: _, [] => false
  | a :: as, b :: bs => a = b && lpre as bs

/-- A `\b` holds to the left of a match beginning with a word character iff
the previous character (if any) is not a word character. -/
def leftOk : Option Char → Bool
  | Option.none => true
  | some c => !isWordChar c

/-- A `\b` holds to the right of a match ending with a word character iff
the next character (if any) is not a word character. -/
def rightOk : List Char → Bool
  | [] => true
  | c :: _ => !isWordChar c

/-- `re.search`: try the position predicate `p` at every position of the
text, tracking the previous character for word-boundary tests. -/
def scan (p : Option Char → List Char → Bool) : Option Char → List Char → Bool
  | _, [] => false
  | prev, c :: r => p prev (c :: r) || scan p (some c) r

/-- Negative lookahead `(?!lit)`, or `(?!\s*lit)` when the flag is set
(`lit` starts with a non-space character, so `\s*` must consume the whole
whitespace run). -/
def nlOk : Option (Bool × List Char) → List Char → Bool
  | Option.none, _ => true
  | some (sw, lit), l => !(lpre lit (if sw then l.dropWhile isSpaceCh else l))

/-- One position of `(\b)?(a1|...|an)(\b)?(?!nl)`: some alternative matches
here, with the requested boundaries and lookahead. -/
def litHere (bl br : Bool) (alts : List (List Char))
    (nl : Option (Bool × List Char)) (prev : Option Char) (s : List Char) : Bool :=
  alts.any fun a =>
    (!bl || leftOk prev) && lpre a s &&
    (!br || rightOk (s.drop a.length)) && nlOk nl (s.drop a.length)

def searchLit (bl br : Bool) (alts : List (List Char))
    (nl : Option (Bool × List Char)) (s : List Char) : Bool :=
  scan (litHere bl br alts nl) Option.none s

/-- `re.search(r'\b(w1|...|wn)\b', s, re.I)` over lowered text. -/
def wordAny (ws : List String) (s : List Char) : Bool :=
  searchLit true true (ws.map String.data) Option.none s

/-- `\ba\s*b\b` (used by the label rules with `\s*` between two words). -/
def wsSeqHere (a b : List Char) (prev : Option Char) (s : List Char) : Bool :=
  leftOk prev && lpre a s &&
  (lpre b ((s.drop a.length).dropWhile isSpaceCh) &&
    rightOk (((s.drop a.length).dropWhile isSpaceCh).drop b.length))

def wsSeq (a b : String) (s : List Char) : Bool :=
  scan (wsSeqHere a.data b.data) Option.none s

/-- Find `m` as a plain substring, handing the text after the occurrence to
the continuation `k` (models one `.*m` step of a gap pattern). -/
def seekLit (m : List Char) (k : List Char → Bool) : List Char → Bool
  | [] => false
  | c :: r => (lpre m (c :: r) && k ((c :: r).drop m.length)) || seekLit m k r

/-- The final literal of a gap pattern: some alternative occurs anywhere,
with a trailing `\b` when `br` is set. -/
def sub1 (br : Bool) (alts : List (List Char)) (line : List Char) : Bool :=
  searchLit false br alts Option.none line

/-- One position of `\bl0.*...`: `l0` matches with a left boundary and the
continuation holds on the rest of the line (a `.` without `re.DOTALL` does
not cross a newline, so the remainder is truncated at the next newline;
`\n` is not a word character, so the truncation preserves the trailing
boundary test). -/
def gapStartHere (l0 : List Char) (k : List Char → Bool)
    (prev : Option Char) (s : List Char) : Bool :=
  leftOk prev && lpre l0 s &&
  k (((s.drop l0.length).takeWhile fun c => c ≠ '\n'))

def gapSearch (l0 : String) (k : List Char → Bool) (s : List Char) : Bool :=
  scan (gapStartHere l0.data k) Option.none s

/-- A value of a product record: the JSON-ish values the pipeline stores. -/
inductive Val where
  | str (s : String)
  | num (q : ℚ)
  | null
deriving DecidableEq

/-- A product record: a mapping of string keys to values. -/
def Rec := String → Option Val

/-- Python truthiness for the record values in scope. -/
def truthy : Val → Bool
  | Val.str s => s != ""
  | Val.num q => q != 0
  | Val.null => false

/-- Python `str()` on a record value (numeric rendering is approximate; the
pipeline only renders string fields, and only membership of words in the
joined text matters). -/
def pyStr : Val → String
  | Val.str s => s
  | Val.num q => toString q
  | Val.null => "None"

/-- `' '.join(str(f) for f in fields if f)` as a character list. -/
def joinSp : List (List Char) → List Char
  | [] => []
  | [x] => x
  | x :: r => x ++ ' ' :: joinSp r

/-- The field list `[product.get(k1, ''), ...]` filtered by truthiness and
rendered, ready for joining. -/
def textParts (fields : List (Option Val)) : List (List Char) :=
  ((fields.map fun f => f.getD (Val.str "")).filter truthy).map fun v => (pyStr v).data

/-! ## src/foodrepo/filters.py — MeatProductFilter -/

def MEAT_CATEGORIES : List String :=
  [ "fleisch", "rindfleisch", "schweinefleisch", "kalbfleisch", "lammfleisch",
    "geflügel", "poulet", "huhn", "ente", "gans", "truthahn", "pute",
    "wurst", "wurstware", "aufschnitt", "speck", "schinken",
    "hackfleisch", "gehacktes", "bratwurst", "leberwurst",
    "viande", "boeuf", "porc", "veau", "agneau", "mouton",
    "volaille", "poulet", "canard", "oie", "dinde", "dindon",
    "charcuterie", "jambon", "saucisse", "saucisson", "pâté",
    "bacon", "lard", "rôti", "escalope", "côtelette",
    "carne", "manzo", "maiale", "vitello", "agnello", "montone",
    "pollame", "pollo", "anatra", "oca", "tacchino",
    "salumi", "prosciutto", "salame", "salsiccia", "pancetta",
    "braciola", "scaloppina", "bistecca",
    "meat", "beef", "pork", "veal", "lamb", "mutton",
    "poultry", "chicken", "duck", "goose", "turkey",
    "sausage", "ham", "bacon", "salami", "pepperoni",
    "steak", "chops", "ground", "minced" ]

def MEAT_INGREDIENTS : List String :=
  [ "rind", "schwein", "kalb", "lamm", "ziege", "kaninchen",
    "hirsch", "reh", "wildschwein", "bison",
    "boeuf", "porc", "veau", "agneau", "chèvre", "lapin",
    "cerf", "chevreuil", "sanglier",
    "manzo", "maiale", "vitello", "agnello", "capra", "coniglio",
    "cervo", "capriolo", "cinghiale",
    "beef", "pork", "veal", "lamb", "goat", "rabbit",
    "venison", "deer", "boar", "bison",
    "huhn", "hähnchen", "hühnchen", "ente", "gans", "truthahn", "pute",
    "poulet", "canard", "oie", "dinde", "dindon", "caille",
    "pollo", "anatra", "oca", "tacchino", "quaglia",
    "chicken", "duck", "goose", "turkey", "quail", "fowl",
    "fisch", "lachs", "forelle", "thunfisch", "kabeljau", "hecht",
    "garnele", "krabbe", "hummer", "muschel", "tintenfisch",
    "poisson", "saumon", "truite", "thon", "cabillaud", "brochet",
    "crevette", "crabe", "homard", "moule", "calmar",
    "pesce", "salmone", "trota", "tonno", "merluzzo", "luccio",
    "gambero", "granchio", "aragosta", "cozza", "calamaro",
    "fish", "salmon", "trout", "tuna", "cod", "pike",
    "shrimp", "prawn", "crab", "lobster", "mussel", "squid", "octopus",
    "wurst", "schinken", "speck", "leberwurst", "blutwurst",
    "saucisse", "jambon", "lard", "boudin", "pâté", "rillettes",
    "salsiccia", "prosciutto", "pancetta", "mortadella", "salame",
    "sausage", "ham", "bacon", "salami", "pepperoni", "chorizo" ]

def EXCLUSIONS : List String :=
  [ "vegetarisch", "vegan", "pflanzlich", "tofu", "seitan",
    "végétarien", "végétalien", "végétal", "soja",
    "vegetariano", "vegano", "vegetale", "soia",
    "vegetarian", "vegan", "plant-based", "soy", "soya" ]

/-- `MeatProductFilter._has_exclusions`: the exclusion pattern searched over
name and ingredients joined with a space. -/
def _has_exclusions (r : Rec) : Bool :=
  wordAny EXCLUSIONS (lowL (joinSp (textParts [r "name", r "ingredients_text"])))

/-- `MeatProductFilter._has_meat_categories`. -/
def _has_meat_categories (r : Rec) : Bool :=
  let c := (r "categories").getD (Val.str "")
  truthy c && wordAny MEAT_CATEGORIES (lowL (pyStr c).data)

/-- `MeatProductFilter._has_meat_ingredients`. -/
def _has_meat_ingredients (r : Rec) : Bool :=
  let ing := (r "ingredients_text").getD (Val.str "")
  truthy ing && wordAny MEAT_INGREDIENTS (lowL (pyStr ing).data)

/-- `MeatProductFilter._has_meat_in_name`. -/
def _has_meat_in_name (r : Rec) : Bool :=
  let nm := (r "name").getD (Val.str "")
  truthy nm &&
    (wordAny MEAT_CATEGORIES (lowL (pyStr nm).data) ||
     wordAny MEAT_INGREDIENTS (lowL (pyStr nm).data))

/-- `MeatProductFilter.is_meat_product`: exclusions first, then the three
positive checks. -/
def is_meat_product (r : Rec) : Bool :=
  if _has_exclusions r then false
  else
    _has_meat_categories r || _has_meat_ingredients r || _has_meat_in_name r

/-! ## src/foodrepo/classifier.py — ProductClassifier -/

/-- `ProductClassifier.ALLOWED_ANIMALS` (a Python set, as a list). -/
def ALLOWED_ANIMALS : List String :=
  [ "eier", "kalbfleisch", "milch", "poulet", "rindfleisch", "schweinefleisch",
    "unknown" ]

/-- `ProductClassifier.ALLOWED_LABELS` (a Python set, as a list). -/
def ALLOWED_LABELS : List String :=
  [ "AGRI NATURA D", "BIO NATUR PLUS D", "BIO ORGANIC MIT SCHWEIZER KREUZ D",
    "BIO SUISSE / BIO KNOSPE D", "BÜNDNER PUURACHALB D", "COOP NATURAFARM D",
    "COOP NATURAPLAN D", "Coop Milchprogramm D", "Cowpassion D", "DEMETER D",
    "Die Faire Milch", "Fairmilk Aldi  D", "Heidimilch D", "Heumilch D",
    "IP-SUISSE D", "KAGfreiland D", "KRÄUTERSCHWEIN D",
    "MIGROS BIO MIT SCHWEIZERKREUZ D", "MIGROS BIO OHNE SCHWEIZERKREUZ D",
    "MIGROS BIO WEIDE-BEEF D", "MIGROS WEIDE-BEEF D", "Migros nachhaltige Milch D",
    "Milch Grüner Teppich D", "NATURA-BEEF D", "NATURA-VEAL DE",
    "NATURE SUISSE BIO D", "NATURE SUISSE D", "OPTIGAL D", "Pro Montagna D",
    "Retour aux sources D", "SILVESTRI ALPSCHWEIN D", "SILVESTRI BIO-WEIDERIND D",
    "SILVESTRI FREILANDSCHWEIN D", "SILVESTRI WEIDERIND D", "SUISSE GARANTIE D",
    "SWISS BLACK ANGUS D",
    "unknown" ]

/-- `ProductClassifier.ANIMAL_RULES`: ordered (pattern, tag) pairs, each
pattern compiled with `re.I` (texts are lowered before matching).  The
second rule is `\bkalb\b(?!fleisch)`, the last is
`\b(milk|lait|latte)\b(?!\s*chocolate)`. -/
def ANIMAL_RULES : List ((List Char → Bool) × String) :=
  [ (wordAny ["kalbfleisch"], "kalbfleisch"),
    (searchLit true true ["kalb".data] (some (false, "fleisch".data)), "kalbfleisch"),
    (wordAny ["veal", "veau", "vitello"], "kalbfleisch"),
    (wordAny ["rindfleisch"], "rindfleisch"),
    (wordAny ["rind", "beef", "boeuf", "manzo"], "rindfleisch"),
    (wordAny ["schweinefleisch"], "schweinefleisch"),
    (wordAny ["schwein", "pork", "porc", "maiale"], "schweinefleisch"),
    (wordAny ["poulet", "huhn", "chicken", "pollo", "hähnchen"], "poulet"),
    (wordAny ["eier", "eggs", "oeufs", "uova"], "eier"),
    (wordAny ["milch"], "milch"),
    (searchLit true true ["milk".data, "lait".data, "latte".data]
      (some (true, "chocolate".data)), "milch") ]

/-- `ProductClassifier.LABEL_RULES`: ordered (pattern, tag) pairs.  An
optional-character class `[- ]?` is expanded into its three alternatives;
`.*` gaps use `gapSearch`/`seekLit`; the ninth pattern
`\bbio suisse|bio knospe|knospe\b` groups as an alternation whose middle
branch has no boundary at all. -/
def LABEL_RULES : List ((List Char → Bool) × String) :=
  [ (wordAny ["naturaplan"], "COOP NATURAPLAN D"),
    (wordAny ["naturaplan", "natura-plan", "natura plan"], "COOP NATURAPLAN D"),
    (wordAny ["naturafarm"], "COOP NATURAFARM D"),
    (wordAny ["naturafarm", "natura-farm", "natura farm"], "COOP NATURAFARM D"),
    (wordAny ["nature suisse bio"], "NATURE SUISSE BIO D"),
    (wordAny ["nature suisse"], "NATURE SUISSE D"),
    (wordAny ["naturabeef", "natura-beef", "natura beef"], "NATURA-BEEF D"),
    (wordAny ["naturaveal", "natura-veal", "natura veal"], "NATURA-VEAL DE"),
    (fun s =>
      searchLit true false ["bio suisse".data] Option.none s ||
      searchLit false false ["bio knospe".data] Option.none s ||
      searchLit false true ["knospe".data] Option.none s,
      "BIO SUISSE / BIO KNOSPE D"),
    (gapSearch "migros" (seekLit "bio".data
        (sub1 true ["weidebeef".data, "weide-beef".data, "weide beef".data])),
      "MIGROS BIO WEIDE-BEEF D"),
    (gapSearch "migros"
        (sub1 true ["weidebeef".data, "weide-beef".data, "weide beef".data]),
      "MIGROS WEIDE-BEEF D"),
    (gapSearch "migros" (seekLit "bio".data (sub1 false ["schweiz".data])),
      "MIGROS BIO MIT SCHWEIZERKREUZ D"),
    (wordAny ["ipsuisse", "ip-suisse", "ip suisse"], "IP-SUISSE D"),
    (wsSeq "suisse" "garantie", "SUISSE GARANTIE D"),
    (wsSeq "agri" "natura", "AGRI NATURA D"),
    (wordAny ["demeter"], "DEMETER D"),
    (wsSeq "kag" "freiland", "KAGfreiland D"),
    (wordAny ["optigal"], "OPTIGAL D"),
    (gapSearch "silvestri" (seekLit "bio".data (sub1 true ["weiderind".data])),
      "SILVESTRI BIO-WEIDERIND D"),
    (gapSearch "silvestri" (sub1 true ["weiderind".data]),
      "SILVESTRI WEIDERIND D"),
    (gapSearch "silvestri" (sub1 true ["freiland".data]),
      "SILVESTRI FREILANDSCHWEIN D"),
    (gapSearch "silvestri" (sub1 true ["alpschwein".data]),
      "SILVESTRI ALPSCHWEIN D") ]

/-- `ClassificationResult` (dataclass). -/
structure ClassificationResult where
  animal : String
  label : String
  confidence : ℚ
  reasoning : String
deriving DecidableEq

/-- The text `apply_simple_rules` matches against: name, brands and the
first 200 characters of the ingredients, truthy fields joined by spaces.
`Option.none` models the `TypeError` raised by slicing a non-string
`ingredients_text` value. -/
def ruleText (r : Rec) : Option (List Char) :=
  match r "ingredients_text" with
  | some (Val.num _) => Option.none
  | some Val.null => Option.none
  | iv =>
    let ing : Option Val := iv.map fun v =>
      match v with
      | Val.str s => Val.str (String.mk (s.data.take 200))
      | v => v
    some (joinSp (textParts [r "name", r "brands", ing]))

/-- `ProductClassifier.apply_simple_rules`.  Result layers: outer
`Option.none` = raised exception; `some Option.none` = the method returned
`None` (no rule matched, or simple rules disabled); `some (some (a?, l?))`
= the result dict, never with both entries absent. -/
def apply_simple_rules (use_simple_rules : Bool) (r : Rec) :
    Option (Option (Option String × Option String)) :=
  if use_simple_rules = false then some Option.none
  else
    match ruleText r with
    | Option.none => Option.none
    | some txt =>
      let lt := lowL txt
      match ANIMAL_RULES.find? (fun p => p.1 lt), LABEL_RULES.find? (fun p => p.1 lt) with
      | Option.none, Option.none => some Option.none
      | fa, fl => some (some (fa.map Prod.snd, fl.map Prod.snd))

def ruleReason : String := "Classified using regex rules"

def partReason : String :=
  "Partial classification using regex rules (LLM integration needed for full classification)"

/-- `ProductClassifier.classify_product` (simple rules plus the current
no-oracle fallback).  `Option.none` models the raised exception of
`apply_simple_rules`. -/
def classify_product (use_simple_rules : Bool) (r : Rec) :
    Option ClassificationResult :=
  (apply_simple_rules use_simple_rules r).map fun rr =>
    match rr with
    | some (some a, some l) => ⟨a, l, 9 / 10, ruleReason⟩
    | some (a?, l?) => ⟨a?.getD "unknown", l?.getD "unknown", 7 / 10, partReason⟩
    | Option.none => ⟨"unknown", "unknown", 1 / 10, partReason⟩

/-- The four fields `classify_products` adds to a record. -/
def classKeys : List String :=
  [ "classified_animal", "classified_label", "classification_confidence",
    "classification_reasoning" ]

/-- `product.copy()` plus `update` with the four classification fields. -/
def classifyUpd (r : Rec) (res : ClassificationResult) : Rec := fun k =>
  if k = "classified_animal" then some (Val.str res.animal)
  else if k = "classified_label" then some (Val.str res.label)
  else if k = "classification_confidence" then some (Val.num res.confidence)
  else if k = "classification_reasoning" then some (Val.str res.reasoning)
  else r k

/-- One iteration of the `classify_products` loop. -/
def classifyOne (r : Rec) : Option Rec :=
  (classify_product true r).map (classifyUpd r)

/-- A Python `for` loop building a new list, where an iteration may raise:
a raise anywhere yields no result list. -/
def mapO (f : Rec → Option Rec) : List Rec → Option (List Rec)
  | [] => some []
  | r :: rs =>
    match f r, mapO f rs with
    | some r2, some rs2 => some (r2 :: rs2)
    | _, _ => Option.none

/-- `ProductClassifier.classify_products` (the printed statistics are not
modelled). -/
def classify_products (ps : List Rec) : Option (List Rec) :=
  mapO classifyOne ps

/-! ## src/utils/mapping.py — EMHRatingMapper -/

/-- Python `dict` assignment `d[k] = v`: replace in place or append. -/
def dinsert {κ α : Type} [DecidableEq κ] (k : κ) (v : α) :
    List (κ × α) → List (κ × α)
  | [] => [(k, v)]
  | (k2, v2) :: t => if k2 = k then (k, v) :: t else (k2, v2) :: dinsert k v t

/-- Python `dict` lookup `d.get(k)` on a `dinsert`-built list. -/
def dget {κ α : Type} [DecidableEq κ] (k : κ) : List (κ × α) → Option α
  | [] => Option.none
  | (k2, v2) :: t => if k2 = k then some v2 else dget k t

/-- One CSV row of the EMH ratings source (`csv.DictReader` row; the three
provenance columns default to the empty string). -/
structure Row where
  label : String
  animal : String
  tier : String
  steps_to_go : String
  product_title : String
  product_url : String
  label_url : String
deriving DecidableEq

/-- One value of `ratings_map`. -/
structure Entry where
  tier : String
  steps_to_go : Option ℤ
  label : String
  animal : String
  product_title : String
  product_url : String
  label_url : String
deriving DecidableEq

/-- `int(row['steps_to_go']) if row['steps_to_go'].strip().isdigit() else None`. -/
def parseSteps (s : String) : Option ℤ :=
  let t := stripL s.data
  if t ≠ [] ∧ t.all Char.isDigit
  then some (Int.ofNat (t.foldl (fun n c => 10 * n + (c.toNat - 48)) 0))
  else Option.none

/-- The composite key `(label.lower(), animal.lower())` of a row (the row's
label and animal already stripped, as in `_load_ratings`). -/
def keyOfRow (row : Row) : String × String :=
  (lowS (stripS row.label), lowS (stripS row.animal))

/-- The `ratings_map` value built from a row. -/
def entryOfRow (row : Row) : Entry :=
  { tier := stripS row.tier
    steps_to_go := parseSteps row.steps_to_go
    label := stripS row.label
    animal := stripS row.animal
    product_title := row.product_title
    product_url := row.product_url
    label_url := row.label_url }

/-- The ratings table: composite key to entry. -/
abbrev RMap := List ((String × String) × Entry)

/-- One iteration of the `_load_ratings` row loop: a row whose stripped
animal is empty is skipped, any other row is written into the dict. -/
def stepRow (acc : RMap) (row : Row) : RMap :=
  if stripS row.animal = "" then acc
  else dinsert (keyOfRow row) (entryOfRow row) acc

/-- `EMHRatingMapper._load_ratings`: `Option.none` models a nonexistent
ratings file, which leaves the table empty without raising. -/
def loadRatings : Option (List Row) → RMap
  | Option.none => []
  | some rows => rows.foldl stepRow []

/-- `EMHRatingMapper._build_normalizations`: the fixed animal dictionary. -/
def animal_normalizations : List (String × String) :=
  [ ("rindfleisch", "rindfleisch"),
    ("schweinefleisch", "schweinefleisch"),
    ("kalbfleisch", "kalbfleisch"),
    ("poulet", "poulet"),
    ("eier", "eier"),
    ("milch", "milch"),
    ("pouletfleisch", "poulet"),
    ("beef", "rindfleisch"),
    ("pork", "schweinefleisch"),
    ("veal", "kalbfleisch"),
    ("chicken", "poulet"),
    ("eggs", "eier"),
    ("milk", "milch") ]

/-- The fixed `variation_mappings` of `_build_normalizations`. -/
def variation_mappings : List (String × String) :=
  [ ("natura-beef", "NATURA-BEEF D"),
    ("natura beef", "NATURA-BEEF D"),
    ("naturabeef", "NATURA-BEEF D"),
    ("natura-veal", "NATURA-VEAL DE"),
    ("natura veal", "NATURA-VEAL DE"),
    ("naturaveal", "NATURA-VEAL DE"),
    ("migros weide-beef", "MIGROS WEIDE-BEEF D"),
    ("weide-beef", "MIGROS WEIDE-BEEF D"),
    ("bio suisse", "BIO SUISSE / BIO KNOSPE D"),
    ("knospe", "BIO SUISSE / BIO KNOSPE D"),
    ("bio knospe", "BIO SUISSE / BIO KNOSPE D"),
    ("coop naturafarm", "COOP NATURAFARM D"),
    ("coop naturaplan", "COOP NATURAPLAN D"),
    ("ip-suisse", "IP-SUISSE D"),
    ("suisse garantie", "SUISSE GARANTIE D"),
    ("agri natura", "AGRI NATURA D"),
    ("demeter", "DEMETER D") ]

/-- `label_normalizations`: each label key of the ratings table mapped to
itself (the keys are already lower case, so `emh_label.lower()` is the key
itself; iterating the keys directly instead of a deduplicating set yields
the same dictionary), then the variation mappings written over it. -/
def label_normalizations (rm : RMap) : List (String × String) :=
  variation_mappings.foldl (fun d p => dinsert p.1 p.2 d)
    (rm.foldl (fun d e => dinsert e.1.1 e.1.1 d) [])

/-- `EMHRatingMapper.normalize_animal`. -/
def normalize_animal (animal : String) : String :=
  if animal = "" then "unknown"
  else
    let n := stripS (lowS animal)
    (dget n animal_normalizations).getD n

/-- `EMHRatingMapper.normalize_label`. -/
def normalize_label (rm : RMap) (label : String) : Option String :=
  if label = "" ∨ lowS label = "unknown" then Option.none
  else
    match dget (lowS label) (label_normalizations rm) with
    | some v => some v
    | Option.none =>
      if ((label_normalizations rm).map Prod.snd).contains label then some label
      else Option.none

/-- `EMHRatingMapper.get_rating`. -/
def get_rating (rm : RMap) (animal label : String) : Option Entry :=
  let na := normalize_animal animal
  match normalize_label rm label with
  | Option.none => Option.none
  | some nl => dget (lowS nl, lowS na) rm

/-- The record fields the mapping stage may add. -/
def mapKeys : List String :=
  [ "emh_tier", "emh_steps_to_go", "emh_mapping_status", "emh_label",
    "emh_animal" ]

/-- The three fields added on every mapping outcome. -/
def mapKeys3 : List String :=
  [ "emh_tier", "emh_steps_to_go", "emh_mapping_status" ]

/-- `product.copy()` plus the three miss fields. -/
def mapUpdMiss (r : Rec) (status : String) : Rec := fun k =>
  if k = "emh_tier" then some Val.null
  else if k = "emh_steps_to_go" then some Val.null
  else if k = "emh_mapping_status" then some (Val.str status)
  else r k

/-- `product.copy()` plus the five hit fields. -/
def mapUpdHit (r : Rec) (e : Entry) : Rec := fun k =>
  if k = "emh_tier" then some (Val.str e.tier)
  else if k = "emh_steps_to_go" then
    some (match e.steps_to_go with
          | some n => Val.num (n : ℚ)
          | Option.none => Val.null)
  else if k = "emh_mapping_status" then some (Val.str "mapped")
  else if k = "emh_label" then some (Val.str e.label)
  else if k = "emh_animal" then some (Val.str e.animal)
  else r k

/-- `normalize_animal` applied to a record value of any type:
`if not animal` accepts any falsy value, a truthy non-string raises
(`Option.none`). -/
def normAnimalVal : Val → Option String
  | Val.str s => some (normalize_animal s)
  | Val.num q => if q = 0 then some "unknown" else Option.none
  | Val.null => some "unknown"

/-- `normalize_label` applied to a record value of any type. -/
def normLabelVal (rm : RMap) : Val → Option (Option String)
  | Val.str s => some (normalize_label rm s)
  | Val.num q => if q = 0 then some Option.none else Option.none
  | Val.null => some Option.none

/-- One iteration of the `map_products_to_ratings` loop.  The outer
`Option.none` models the uncaught `AttributeError` of `.lower()` on a
truthy non-string classification value. -/
def mapOne (rm : RMap) (r : Rec) : Option Rec :=
  let animalV := (r "classified_animal").getD (Val.str "unknown")
  let labelV := (r "classified_label").getD (Val.str "unknown")
  if labelV = Val.str "unknown" then some (mapUpdMiss r "no_label")
  else
    match normAnimalVal animalV with
    | Option.none => Option.none
    | some na =>
      match normLabelVal rm labelV with
      | Option.none => Option.none
      | some nl =>
        let rating : Option Entry :=
          match nl with
          | Option.none => Option.none
          | some nlv => dget (lowS nlv, lowS na) rm
        match rating with
        | some e => some (mapUpdHit r e)
        | Option.none => some (mapUpdMiss r "no_rating")

/-- `EMHRatingMapper.map_products_to_ratings` (printed statistics not
modelled). -/
def map_products_to_ratings (rm : RMap) (ps : List Rec) : Option (List Rec) :=
  mapO (mapOne rm) ps

/-! ## JSON values and `json.loads` (the standard-library collaborator of
`ProductClassifier.parse_llm_response`) -/

/-- A parsed JSON value.  Numbers are modelled as rationals (`NaN`/infinity
literals are outside the model). -/
inductive JVal where
  | jstr (s : List Char)
  | jnum (q : ℚ)
  | jbool (b : Bool)
  | jnull
  | jarr (xs : List JVal)
  | jobj (fs : List (List Char × JVal))

/-- JSON inter-token whitespace. -/
def jWs (c : Char) : Bool := c = ' ' || c = '\t' || c = '\n' || c = '\r'

def jSkipWs (s : List Char) : List Char := s.dropWhile jWs

def hexVal (c : Char) : Option Nat :=
  if c.isDigit then some (c.toNat - 48)
  else if 'a' ≤ c ∧ c ≤ 'f' then some (c.toNat - 87)
  else if 'A' ≤ c ∧ c ≤ 'F' then some (c.toNat - 55)
  else Option.none

def escChar (e : Char) : Option Char :=
  if e = '"' then some '"'
  else if e = '\\' then some '\\'
  else if e = '/' then some '/'
  else if e = 'b' then some '\x08'
  else if e = 'f' then some '\x0c'
  else if e = 'n' then some '\n'
  else if e = 'r' then some '\r'
  else if e = 't' then some '\t'
  else Option.none

/-- JSON string body (after the opening quote): returns the decoded
characters and the rest after the closing quote.  Raw control characters
are rejected (strict mode). -/
def pStrA : Nat → List Char → Option (List Char × List Char)
  | 0, _ => Option.none
  | _ + 1, [] => Option.none
  | fuel + 1, c :: r =>
    if c = '"' then some ([], r)
    else if c = '\\' then
      match r with
      | [] => Option.none
      | e :: r2 =>
        if e = 'u' then
          match r2 with
          | h1 :: h2 :: h3 :: h4 :: r3 =>
            match hexVal h1, hexVal h2, hexVal h3, hexVal h4 with
            | some a, some b, some c2, some d =>
              (pStrA fuel r3).map fun p =>
                (Char.ofNat (((a * 16 + b) * 16 + c2) * 16 + d) :: p.1, p.2)
            | _, _, _, _ => Option.none
          | _ => Option.none
        else
          match escChar e with
          | some ec => (pStrA fuel r2).map fun p => (ec :: p.1, p.2)
          | Option.none => Option.none
    else if c.toNat < 32 then Option.none
    else (pStrA fuel r).map fun p => (c :: p.1, p.2)

def natOfDigits (ds : List Char) : Nat :=
  ds.foldl (fun n c => 10 * n + (c.toNat - 48)) 0

/-- Optional JSON fraction part `.digits`. -/
def pFrac : List Char → Option (List Char × List Char)
  | '.' :: s3 =>
    let fds := s3.takeWhile Char.isDigit
    if fds = [] then Option.none else some (fds, s3.dropWhile Char.isDigit)
  | s => some ([], s)

/-- Optional JSON exponent part `(e|E)[+-]digits`: (negative?, value). -/
def pExp (s : List Char) : Option ((Bool × Nat) × List Char) :=
  match s with
  | c :: r =>
    if c = 'e' ∨ c = 'E' then
      let (en, r2) : Bool × List Char :=
        match r with
        | c2 :: r3 => if c2 = '-' then (true, r3)
                      else if c2 = '+' then (false, r3) else (false, r)
        | [] => (false, r)
      let eds := r2.takeWhile Char.isDigit
      if eds = [] then Option.none
      else some ((en, natOfDigits eds), r2.dropWhile Char.isDigit)
    else some ((false, 0), s)
  | [] => some ((false, 0), s)

/-- JSON number (with the leading-zero rule). -/
def pNum (s : List Char) : Option (ℚ × List Char) :=
  let (neg, s1) : Bool × List Char :=
    match s with
    | c :: r => if c = '-' then (true, r) else (false, s)
    | [] => (false, s)
  let ids := s1.takeWhile Char.isDigit
  let s2 := s1.dropWhile Char.isDigit
  if ids = [] then Option.none
  else if 1 < ids.length ∧ ids.head? = some '0' then Option.none
  else
    match pFrac s2 with
    | Option.none => Option.none
    | some (fds, s3) =>
      match pExp s3 with
      | Option.none => Option.none
      | some ((en, ev), s4) =>
        let base : ℚ := (natOfDigits ids : ℚ) + (natOfDigits fds : ℚ) / (10 : ℚ) ^ fds.length
        let scaled : ℚ := if en then base / (10 : ℚ) ^ ev else base * (10 : ℚ) ^ ev
        some ((if neg then -scaled else scaled), s4)

mutual

/-- One JSON value, recursive descent with fuel. -/
def pJV : Nat → List Char → Option (JVal × List Char)
  | 0, _ => Option.none
  | fuel + 1, s =>
    match jSkipWs s with
    | [] => Option.none
    | c :: r =>
      if c = '"' then (pStrA fuel r).map fun p => (JVal.jstr p.1, p.2)
      else if c = '{' then
        match jSkipWs r with
        | '}' :: r2 => some (JVal.jobj [], r2)
        | r2 => pMems fuel r2 []
      else if c = '[' then
        match jSkipWs r with
        | ']' :: r2 => some (JVal.jarr [], r2)
        | r2 => pElems fuel r2 []
      else if c = 't' then
        if lpre "rue".data r then some (JVal.jbool true, r.drop 3) else Option.none
      else if c = 'f' then
        if lpre "alse".data r then some (JVal.jbool false, r.drop 4) else Option.none
      else if c = 'n' then
        if lpre "ull".data r then some (JVal.jnull, r.drop 3) else Option.none
      else (pNum (c :: r)).map fun p => (JVal.jnum p.1, p.2)

/-- Object members (at a key position).  Members are written into a Python
dict, so a duplicate key keeps the last value (`dinsert`). -/
def pMems : Nat → List Char → List (List Char × JVal) →
    Option (JVal × List Char)
  | 0, _, _ => Option.none
  | fuel + 1, '"' :: r, acc =>
    (match pStrA fuel r with
     | Option.none => Option.none
     | some (key, r2) =>
       match jSkipWs r2 with
       | ':' :: r3 =>
         match pJV fuel r3 with
         | Option.none => Option.none
         | some (v, r4) =>
           match jSkipWs r4 with
           | ',' :: r5 => pMems fuel (jSkipWs r5) (dinsert key v acc)
           | '}' :: r5 => some (JVal.jobj (dinsert key v acc), r5)
           | _ => Option.none
       | _ => Option.none)
  | _ + 1, _, _ => Option.none

/-- Array elements. -/
def pElems : Nat → List Char → List JVal → Option (JVal × List Char)
  | 0, _, _ => Option.none
  | fuel + 1, s, acc =>
    match pJV fuel s with
    | Option.none => Option.none
    | some (v, r) =>
      match jSkipWs r with
      | ',' :: r2 => pElems fuel r2 (acc ++ [v])
      | ']' :: r2 => some (JVal.jarr (acc ++ [v]), r2)
      | _ => Option.none

end

/-- `json.loads`: parse one value and require only whitespace after it. -/
def jsonLoads (s : List Char) : Option JVal :=
  match pJV (2 * s.length + 4) s with
  | some (v, rest) => if jSkipWs rest = [] then some v else Option.none
  | Option.none => Option.none

/-! ## `ProductClassifier.parse_llm_response` -/

/-- `re.search(r'\x7b.*\x7d', text, re.DOTALL)`: the span from the first
opening brace to the last closing brace after it, if any. -/
def extractSpan (s : List Char) : Option (List Char) :=
  let s1 := s.dropWhile fun c => c ≠ '{'
  let r := s1.reverse.dropWhile fun c => c ≠ '}'
  if 2 ≤ r.length then some r.reverse else Option.none

/-- Outcome of `parse_llm_response`: a result, `None` (any caught error),
or an uncaught exception (`AttributeError` from `.lower()` on a non-string
field). -/
inductive PResult where
  | ok (r : ClassificationResult)
  | rej
  | exn
deriving DecidableEq

def requiredFields : List (List Char) :=
  ["animal".data, "label".data, "confidence".data, "reasoning".data]

def jGet (d : List (List Char × JVal)) (k : List Char) : Option JVal :=
  dget k d

/-- Python `float(x)` on a string: optional sign, digits around an optional
point, optional exponent, surrounding whitespace (`inf`/`nan` outside the
model). -/
def floatStr (s : List Char) : Option ℚ :=
  let t := stripL s
  let (neg, t1) : Bool × List Char :=
    match t with
    | c :: r => if c = '-' then (true, r) else if c = '+' then (false, r) else (false, t)
    | [] => (false, t)
  let ids := t1.takeWhile Char.isDigit
  let t2 := t1.dropWhile Char.isDigit
  let (fds, t3) : List Char × List Char :=
    match t2 with
    | '.' :: r => (r.takeWhile Char.isDigit, r.dropWhile Char.isDigit)
    | _ => ([], t2)
  if ids = [] ∧ fds = [] then Option.none
  else
    match pExp t3 with
    | some ((en, ev), []) =>
      let base : ℚ := (natOfDigits ids : ℚ) + (natOfDigits fds : ℚ) / (10 : ℚ) ^ fds.length
      let scaled : ℚ := if en then base / (10 : ℚ) ^ ev else base * (10 : ℚ) ^ ev
      some (if neg then -scaled else scaled)
    | _ => Option.none

/-- Python `float(x)` on a JSON value; `Option.none` is a raised
`ValueError`/`TypeError`, both caught by `parse_llm_response`. -/
def pyFloat : JVal → Option ℚ
  | JVal.jnum q => some q
  | JVal.jbool b => some (if b then 1 else 0)
  | JVal.jstr s => floatStr s
  | _ => Option.none

/-- Python `str()` on a JSON value (used only for the `reasoning` field;
the rendering of non-string values is approximate and no claim depends on
it). -/
def pyStrJ : JVal → String
  | JVal.jstr s => String.mk s
  | JVal.jbool b => if b then "True" else "False"
  | JVal.jnull => "None"
  | JVal.jnum q => toString q
  | JVal.jarr _ => "list"
  | JVal.jobj _ => "dict"

/-- The body of `parse_llm_response` after the regex extraction: load the
JSON, check the four required fields, case-fold and validate animal and
label against the allowed sets, convert the confidence. -/
def parseSpan (span : List Char) : PResult :=
  match jsonLoads span with
  | Option.none => PResult.rej
  | some (JVal.jobj d) =>
    if requiredFields.all fun k => (jGet d k).isSome then
      match jGet d "animal".data, jGet d "label".data,
            jGet d "confidence".data, jGet d "reasoning".data with
      | some va, some vl, some vc, some vr =>
        match va with
        | JVal.jstr a =>
          match vl with
          | JVal.jstr l =>
            let animal := lowL a
            let label := lowL l
            let animal2 :=
              if (ALLOWED_ANIMALS.map String.data).contains animal then animal
              else "unknown".data
            let label2 :=
              if (ALLOWED_LABELS.map String.data).contains label then label
              else "unknown".data
            match pyFloat vc with
            | some q => PResult.ok ⟨String.mk animal2, String.mk label2, q, pyStrJ vr⟩
            | Option.none => PResult.rej
          | _ => PResult.exn
        | _ => PResult.exn
      | _, _, _, _ => PResult.rej
    else PResult.rej
  | some _ => PResult.rej

/-- `ProductClassifier.parse_llm_response`. -/
def parse_llm_response (s : List Char) : PResult :=
  match extractSpan s with
  | Option.none => PResult.rej
  | some sp => parseSpan sp

/-! ## Dictionary lemmas -/

theorem dget_dinsert_self {κ α : Type} [DecidableEq κ] (k : κ) (v : α)
    (d : List (κ × α)) : dget k (dinsert k v d) = some v := by
  induction d with
  | nil => simp [dinsert, dget]
  | cons hd t ih =>
    obtain ⟨k2, v2⟩ := hd
    simp only [dinsert]
    by_cases h2 : k2 = k
    · rw [if_pos h2]
      simp [dget]
    · rw [if_neg h2]
      simp only [dget, if_neg h2]
      exact ih

theorem dget_dinsert_ne {κ α : Type} [DecidableEq κ] (k k2 : κ) (v : α)
    (d : List (κ × α)) (h : k2 ≠ k) : dget k (dinsert k2 v d) = dget k d := by
  induction d with
  | nil => simp [dinsert, dget, h]
  | cons hd t ih =>
    obtain ⟨k3, v3⟩ := hd
    simp only [dinsert]
    by_cases h3 : k3 = k2
    · subst h3
      rw [if_pos rfl]
      simp only [dget, if_neg h]
    · rw [if_neg h3]
      simp only [dget]
      by_cases h4 : k3 = k
      · rw [if_pos h4, if_pos h4]
      · rw [if_neg h4, if_neg h4]
        exact ih

/-! ## Concrete inputs for the claims -/

/-- The record of end-to-end scenario 3 of the spec. -/
def recPoulet : Rec := fun k =>
  if k = "name" then some (Val.str "Poulet Migros")
  else if k = "ingredients_text" then some (Val.str "")
  else Option.none

/-- A classified record whose label is the case variant `Unknown`. -/
def recUnk : Rec := fun k =>
  if k = "classified_animal" then some (Val.str "poulet")
  else if k = "classified_label" then some (Val.str "Unknown")
  else Option.none

/-- A well-formed rating-source row. -/
def rowGood : Row := ⟨"NATURA-BEEF D", "rindfleisch", "TOP", "0", "", "", ""⟩

/-- A rating-source row with a non-numeric steps value. -/
def rowBad : Row := ⟨"LBL", "poulet", "OK", "N/A", "", "", ""⟩

/-- An oracle response whose label is the closed-set member
`NATURA-BEEF D` (upper case, as the closed set spells it). -/
def oracleResp1 : List Char :=
  "\x7b\"animal\": \"RINDFLEISCH\", \"label\": \"NATURA-BEEF D\", \"confidence\": 0.9, \"reasoning\": \"x\"\x7d".data

/-! ## C1 -/

/-- C1: the code lower-cases the oracle label and then tests membership in
the mixed-case closed set, so the closed-set member `NATURA-BEEF D` — which
the claim says is returned as that member — is coerced to `unknown`
(the animal axis, whose closed set is all lower case, works as claimed:
`RINDFLEISCH` comes back as `rindfleisch`). -/
theorem c1_label_validation_bug :
    (∃ q : ℚ, parse_llm_response oracleResp1 =
        PResult.ok ⟨"rindfleisch", "unknown", q, "x"⟩ ∧ q = 9 / 10) ∧
    "NATURA-BEEF D" ∈ ALLOWED_LABELS ∧
    lowS "NATURA-BEEF D" = "natura-beef d" ∧
    "natura-beef d" ∉ ALLOWED_LABELS := by
  refine ⟨⟨_, rfl, ?_⟩, by decide, by decide, by decide⟩
  simp +decide [List.takeWhile_cons, natOfDigits, List.foldl]

/-! ## C2 -/

/-- C2 counterexample: on the record of scenario 3 the classifier's
confidence is 0.7 (one rule axis matched), not the claimed 0.1. -/
theorem c2_counterexample :
    (classify_product true recPoulet).map ClassificationResult.confidence =
      some (7 / 10) ∧ ((7 : ℚ) / 10 ≠ 1 / 10) := by
  refine ⟨rfl, by norm_num⟩

/-- C2 (amended): {name: Poulet Migros, ingredients: ""} classifies to
animal poulet, label unknown with confidence 0.7 (the animal axis matched
by rule, so this is a partial rule match, not the no-match value 0.1), and
for every ratings table the mapping stage then assigns status no_label and
tier None. -/
theorem c2_amended :
    classify_product true recPoulet =
      some ⟨"poulet", "unknown", 7 / 10, partReason⟩ ∧
    ∀ rm : RMap,
      ((classify_products [recPoulet]).bind (map_products_to_ratings rm)).map
          (fun out => out.map fun r => (r "emh_mapping_status", r "emh_tier")) =
        some [(some (Val.str "no_label"), some Val.null)] := by
  refine ⟨rfl, fun rm => rfl⟩

/-! ## C3 -/

/-- C3 counterexample: a classified record with label `Unknown` (a case
variant of unknown) is given status `no_rating` by the mapping stage, not
the claimed `no_label`. -/
theorem c3_counterexample :
    (map_products_to_ratings (loadRatings (some [rowGood])) [recUnk]).map
        (fun out => out.map fun r =>
          (r "emh_mapping_status", r "emh_tier", r "emh_steps_to_go")) =
      some [(some (Val.str "no_rating"), some Val.null, some Val.null)] ∧
    "no_rating" ≠ "no_label" := by
  refine ⟨by decide, by decide⟩

theorem get_rating_of_normalize_none (rm : RMap) (a s : String)
    (h : normalize_label rm s = Option.none) :
    get_rating rm a s = Option.none := by
  unfold get_rating
  rw [h]

theorem normalize_label_unknown (rm : RMap) (s : String)
    (hu : lowS s = "unknown" ∨ s = "") :
    normalize_label rm s = Option.none := by
  unfold normalize_label
  rw [if_pos (Or.symm hu)]

/-- The mapping loop body on a record whose classification fields are
strings with a label other than the literal `unknown`: it is the
`get_rating` lookup, a hit adding the five rating fields and a miss adding
the three `no_rating` fields. -/
theorem mapOne_str (rm : RMap) (r : Rec) (s a : String)
    (hl : r "classified_label" = some (Val.str s))
    (ha : r "classified_animal" = some (Val.str a))
    (hs : s ≠ "unknown") :
    mapOne rm r =
      (match get_rating rm a s with
       | some e => some (mapUpdHit r e)
       | Option.none => some (mapUpdMiss r "no_rating")) := by
  have hne : ¬(Val.str s = Val.str "unknown") := by simp [hs]
  simp only [mapOne, hl, ha, Option.getD_some, if_neg hne, normAnimalVal,
    normLabelVal, get_rating]

/-- C3 (amended): the mapping stage assigns the `no_label` status only on
the exact lower-case literal `unknown`; a record whose classified label is
a different case variant of unknown (e.g. `Unknown`, `UNKNOWN`) or the
empty string takes the rating-lookup path, its label normalizes to
nothing, and it receives status `no_rating` — with `emh_tier` and
`emh_steps_to_go` still None. -/
theorem c3_amended (rm : RMap) (r : Rec) (s a : String)
    (hl : r "classified_label" = some (Val.str s))
    (ha : r "classified_animal" = some (Val.str a))
    (hs : s ≠ "unknown") (hu : lowS s = "unknown" ∨ s = "") :
    mapOne rm r = some (mapUpdMiss r "no_rating") ∧
      mapUpdMiss r "no_rating" "emh_mapping_status" = some (Val.str "no_rating") ∧
      mapUpdMiss r "no_rating" "emh_tier" = some Val.null ∧
      mapUpdMiss r "no_rating" "emh_steps_to_go" = some Val.null := by
  refine ⟨?_, by simp [mapUpdMiss], by simp [mapUpdMiss], by simp [mapUpdMiss]⟩
  rw [mapOne_str rm r s a hl ha hs,
    get_rating_of_normalize_none rm a s (normalize_label_unknown rm s hu)]

/-- C3 witness: the amended statement at the concrete `Unknown` record. -/
theorem c3_amended_witness :
    mapOne [] recUnk = some (mapUpdMiss recUnk "no_rating") ∧
      mapUpdMiss recUnk "no_rating" "emh_mapping_status" = some (Val.str "no_rating") ∧
      mapUpdMiss recUnk "no_rating" "emh_tier" = some Val.null ∧
      mapUpdMiss recUnk "no_rating" "emh_steps_to_go" = some Val.null :=
  c3_amended [] recUnk "Unknown" "poulet" rfl rfl (by decide) (Or.inl (by decide))

/-! ## C5 -/

/-- C5 counterexample: a row with non-numeric steps (`N/A`) is not skipped:
it contributes an entry to the table, with steps None. -/
theorem c5_counterexample :
    loadRatings (some [rowBad]) =
      [(("lbl", "poulet"), ⟨"OK", Option.none, "LBL", "poulet", "", "", ""⟩)] := by
  decide

/-- C5 (amended): at load time only rows whose (stripped) animal is empty
are skipped — loading continues over the remaining rows — while a row with
a non-numeric steps value is loaded as an entry whose steps_to_go is None,
not skipped. -/
theorem c5_amended (p s : List Row) (row : Row) :
    (stripS row.animal = "" →
      loadRatings (some (p ++ row :: s)) = loadRatings (some (p ++ s))) ∧
    (stripS row.animal ≠ "" →
      dget (keyOfRow row) (loadRatings (some (p ++ [row]))) =
        some (entryOfRow row)) ∧
    ((stripS row.steps_to_go).data.all Char.isDigit = false →
      (entryOfRow row).steps_to_go = Option.none) := by
  refine ⟨?_, ?_, ?_⟩
  · intro h
    simp only [loadRatings, List.foldl_append, List.foldl_cons]
    rw [show stepRow (p.foldl stepRow []) row = p.foldl stepRow [] from by
      simp [stepRow, h]]
  · intro h
    simp only [loadRatings, List.foldl_append, List.foldl_cons, List.foldl_nil]
    rw [show stepRow (p.foldl stepRow []) row =
        dinsert (keyOfRow row) (entryOfRow row) (p.foldl stepRow []) from by
      simp [stepRow, h]]
    exact dget_dinsert_self _ _ _
  · intro h
    have : parseSteps row.steps_to_go = Option.none := by
      unfold parseSteps
      rw [if_neg]
      rintro ⟨-, hall⟩
      rw [show stripL row.steps_to_go.data = (stripS row.steps_to_go).data from rfl,
        h] at hall
      exact Bool.false_ne_true hall
    simp [entryOfRow, this]

/-! ## C6 -/

/-- C6: a missing rating source yields the empty table (construction does
not raise: `loadRatings Option.none` is total and returns `[]`); on the
empty table every `get_rating` call returns None, and every classified
record with string classification fields and a label other than the
literal `unknown` receives status `no_rating` from the mapping stage. -/
theorem c6_missing_source :
    loadRatings Option.none = [] ∧
    (∀ a l, get_rating (loadRatings Option.none) a l = Option.none) ∧
    ∀ (r : Rec) (s a : String),
      r "classified_label" = some (Val.str s) →
      r "classified_animal" = some (Val.str a) →
      s ≠ "unknown" →
      mapOne (loadRatings Option.none) r = some (mapUpdMiss r "no_rating") ∧
        mapUpdMiss r "no_rating" "emh_mapping_status" =
          some (Val.str "no_rating") := by
  have hempty : ∀ a l, get_rating (loadRatings Option.none) a l = Option.none := by
    intro a l
    unfold get_rating
    cases h : normalize_label (loadRatings Option.none) l with
    | none => rfl
    | some nl => rfl
  refine ⟨rfl, hempty, ?_⟩
  intro r s a hl ha hs
  refine ⟨?_, by simp [mapUpdMiss]⟩
  rw [mapOne_str _ r s a hl ha hs, hempty a s]

/-- C6 witness: the no-rating outcome at a concrete classified record
against the empty table. -/
theorem c6_missing_source_witness :
    mapOne (loadRatings Option.none) recUnk =
      some (mapUpdMiss recUnk "no_rating") ∧
      mapUpdMiss recUnk "no_rating" "emh_mapping_status" =
        some (Val.str "no_rating") :=
  c6_missing_source.2.2 recUnk "Unknown" "poulet" rfl rfl (by decide)

/-! ## Matching lemmas for exclusion dominance (C7) -/

theorem scan_nil (p : Option Char → List Char → Bool) (prev : Option Char) :
    scan p prev [] = false := rfl

theorem scan_mono (p q : Option Char → List Char → Bool)
    (hpq : ∀ pr s2, p pr s2 = true → q pr s2 = true) :
    ∀ (s : List Char) (prev : Option Char),
      scan p prev s = true → scan q prev s = true := by
  intro s
  induction s with
  | nil => intro prev h; simp [scan] at h
  | cons c r ih =>
    intro prev h
    simp only [scan, Bool.or_eq_true] at h ⊢
    rcases h with h | h
    · exact Or.inl (hpq _ _ h)
    · exact Or.inr (ih _ h)

theorem scan_append (p : Option Char → List Char → Bool) (u : List Char)
    (hext : ∀ pr s2, p pr s2 = true → p pr (s2 ++ u) = true) :
    ∀ (s : List Char) (prev : Option Char),
      scan p prev s = true → scan p prev (s ++ u) = true := by
  intro s
  induction s with
  | nil => intro prev h; simp [scan] at h
  | cons c r ih =>
    intro prev h
    simp only [scan, Bool.or_eq_true] at h
    simp only [List.cons_append, scan, Bool.or_eq_true]
    rcases h with h | h
    · exact Or.inl (hext _ _ h)
    · exact Or.inr (ih _ h)

theorem scan_suffix (p : Option Char → List Char → Bool) (d : Char)
    (y : List Char) (hy : scan p (some d) y = true) :
    ∀ (x : List Char) (prev : Option Char),
      scan p prev (x ++ d :: y) = true := by
  intro x
  induction x with
  | nil => intro prev; simp only [List.nil_append, scan, Bool.or_eq_true]; exact Or.inr hy
  | cons c r ih =>
    intro prev
    simp only [List.cons_append, scan, Bool.or_eq_true]
    exact Or.inr (ih (some c))

theorem lpre_append (a : List Char) :
    ∀ (s u : List Char), lpre a s = true → lpre a (s ++ u) = true := by
  induction a with
  | nil => intro s u _; simp [lpre]
  | cons c as ih =>
    intro s u h
    cases s with
    | nil => simp [lpre] at h
    | cons b bs =>
      simp only [lpre, Bool.and_eq_true] at h
      simp only [List.cons_append, lpre, Bool.and_eq_true]
      exact ⟨h.1, ih bs u h.2⟩

theorem lpre_length (a : List Char) :
    ∀ s : List Char, lpre a s = true → a.length ≤ s.length := by
  induction a with
  | nil => intro s _; simp
  | cons c as ih =>
    intro s h
    cases s with
    | nil => simp [lpre] at h
    | cons b bs =>
      simp only [lpre, Bool.and_eq_true] at h
      have := ih bs h.2
      simp only [List.length_cons]
      omega

theorem rightOk_sp (x y : List Char) (h : rightOk x = true) :
    rightOk (x ++ ' ' :: y) = true := by
  cases x with
  | nil => exact (by decide : (!isWordChar ' ') = true)
  | cons c r => exact h

theorem scan_prev_congr (p : Option Char → List Char → Bool)
    (p1 p2 : Option Char) (h : ∀ s2, p p1 s2 = p p2 s2) (s : List Char) :
    scan p p1 s = scan p p2 s := by
  cases s with
  | nil => rfl
  | cons c r => simp only [scan, h]

theorem litHere_ext (alts : List (List Char)) (prev : Option Char)
    (s y : List Char)
    (h : litHere true true alts Option.none prev s = true) :
    litHere true true alts Option.none prev (s ++ ' ' :: y) = true := by
  simp only [litHere, List.any_eq_true, Bool.and_eq_true] at h ⊢
  obtain ⟨a, ha, ⟨⟨h1, h2⟩, h3⟩, h4⟩ := h
  refine ⟨a, ha, ⟨⟨h1, lpre_append a s _ h2⟩, ?_⟩, ?_⟩
  · rw [List.drop_append_of_le_length (lpre_length a s h2)]
    exact rightOk_sp _ y h3
  · simp [nlOk]

theorem leftOk_sp : leftOk (some ' ') = true := by decide

theorem litHere_prev (alts : List (List Char)) (nl : Option (Bool × List Char))
    (p1 p2 : Option Char) (s : List Char) (h : leftOk p1 = leftOk p2) :
    litHere true true alts nl p1 s = litHere true true alts nl p2 s := by
  simp only [litHere, h]

/-- A whole-word occurrence in the left part survives joining with a
space. -/
theorem wordAny_join_left (alts : List (List Char)) (x y : List Char)
    (h : searchLit true true alts Option.none x = true) :
    searchLit true true alts Option.none (x ++ ' ' :: y) = true := by
  unfold searchLit at h ⊢
  have hext := fun pr s2 h2 => litHere_ext alts pr s2 y h2
  have := scan_append (litHere true true alts Option.none) (' ' :: y) hext x Option.none h
  simpa using this

/-- A whole-word occurrence in the right part survives joining with a
space. -/
theorem wordAny_join_right (alts : List (List Char)) (x y : List Char)
    (h : searchLit true true alts Option.none y = true) :
    searchLit true true alts Option.none (x ++ ' ' :: y) = true := by
  unfold searchLit at h ⊢
  have hcong : ∀ s2, litHere true true alts Option.none (some ' ') s2 =
      litHere true true alts Option.none Option.none s2 := fun s2 =>
    litHere_prev alts Option.none (some ' ') Option.none s2 (by decide)
  have hsp : scan (litHere true true alts Option.none) (some ' ') y = true := by
    rw [scan_prev_congr _ (some ' ') Option.none hcong]
    exact h
  exact scan_suffix _ ' ' y hsp x Option.none

/-- A single matched alternative is enough for the full alternation. -/
theorem wordAny_mono (a : List Char) (alts : List (List Char)) (ha : a ∈ alts)
    (s : List Char) (h : searchLit true true [a] Option.none s = true) :
    searchLit true true alts Option.none s = true := by
  unfold searchLit at h ⊢
  refine scan_mono _ _ ?_ s Option.none h
  intro pr s2 h2
  simp only [litHere, List.any_eq_true] at h2 ⊢
  obtain ⟨b, hb, hcond⟩ := h2
  simp only [List.mem_singleton] at hb
  exact ⟨a, ha, hb ▸ hcond⟩

/-- A single whole-word occurrence in either side of a space-join gives the
full alternation a match on the join. -/
theorem excl_join (t : List Char) (alts : List (List Char)) (hmem : t ∈ alts)
    (x y : List Char)
    (h : searchLit true true [t] Option.none x = true ∨
         searchLit true true [t] Option.none y = true) :
    searchLit true true alts Option.none (x ++ ' ' :: y) = true := by
  rcases h with h | h
  · exact wordAny_mono t alts hmem _ (wordAny_join_left [t] x y h)
  · exact wordAny_mono t alts hmem _ (wordAny_join_right [t] x y h)

/-- The text of a record field when it is a string (the shape the claims
quantify over); anything else contributes no word occurrences. -/
def strF : Option Val → List Char
  | some (Val.str s) => s.data
  | _ => []

/-! ## C7 -/

/-- C7: if any exclusion term occurs as a whole word (case-insensitively)
in the name or in the ingredients text, `is_meat_product` returns false,
whatever else the record contains — exclusion dominates every positive
signal. -/
theorem c7_exclusion_dominance (r : Rec) (t : String) (ht : t ∈ EXCLUSIONS)
    (hocc : wordAny [t] (lowL (strF (r "name"))) = true ∨
            wordAny [t] (lowL (strF (r "ingredients_text"))) = true) :
    is_meat_product r = false := by
  have hmem : t.data ∈ EXCLUSIONS.map String.data := List.mem_map_of_mem _ ht
  suffices hexcl : _has_exclusions r = true by
    simp [is_meat_product, hexcl]
  unfold _has_exclusions wordAny
  have hsp : lowCh ' ' = ' ' := by decide
  have hlowsplit : ∀ x y : List Char,
      lowL (x ++ ' ' :: y) = lowL x ++ ' ' :: lowL y := by
    intro x y
    simp [lowL, hsp]
  rcases hocc with hocc | hocc
  · rcases hn : r "name" with - | v
    · rw [hn] at hocc
      simp [strF, wordAny, searchLit, scan, lowL] at hocc
    rcases v with s | q | -
    rotate_left
    · rw [hn] at hocc
      simp [strF, wordAny, searchLit, scan, lowL] at hocc
    · rw [hn] at hocc
      simp [strF, wordAny, searchLit, scan, lowL] at hocc
    have hs : s ≠ "" := by
      intro h0
      rw [hn, h0] at hocc
      simp [strF, wordAny, searchLit, scan, lowL] at hocc
    have htruthyS : truthy (Val.str s) = true := by simp [truthy, hs]
    have hocc2 : searchLit true true [t.data] Option.none (lowL s.data) = true := by
      rw [hn] at hocc
      simpa [strF, wordAny] using hocc
    by_cases hit : truthy ((r "ingredients_text").getD (Val.str "")) = true
    · have hparts : textParts [some (Val.str s), r "ingredients_text"] =
          [s.data, (pyStr ((r "ingredients_text").getD (Val.str ""))).data] := by
        simp [textParts, htruthyS, hit, pyStr]
      rw [hparts,
        show joinSp [s.data,
            (pyStr ((r "ingredients_text").getD (Val.str ""))).data] =
          s.data ++ ' ' ::
            (pyStr ((r "ingredients_text").getD (Val.str ""))).data from rfl,
        hlowsplit]
      exact excl_join t.data _ hmem _ _ (Or.inl hocc2)
    · rw [Bool.not_eq_true] at hit
      have hparts : textParts [some (Val.str s), r "ingredients_text"] = [s.data] := by
        simp [textParts, htruthyS, hit, pyStr]
      rw [hparts, show joinSp [s.data] = s.data from rfl]
      exact wordAny_mono t.data _ hmem _ hocc2
  · rcases hi : r "ingredients_text" with - | v
    · rw [hi] at hocc
      simp [strF, wordAny, searchLit, scan, lowL] at hocc
    rcases v with s | q | -
    rotate_left
    · rw [hi] at hocc
      simp [strF, wordAny, searchLit, scan, lowL] at hocc
    · rw [hi] at hocc
      simp [strF, wordAny, searchLit, scan, lowL] at hocc
    have hs : s ≠ "" := by
      intro h0
      rw [hi, h0] at hocc
      simp [strF, wordAny, searchLit, scan, lowL] at hocc
    have htruthyS : truthy (Val.str s) = true := by simp [truthy, hs]
    have hocc2 : searchLit true true [t.data] Option.none (lowL s.data) = true := by
      rw [hi] at hocc
      simpa [strF, wordAny] using hocc
    by_cases hnt : truthy ((r "name").getD (Val.str "")) = true
    · have hparts : textParts [r "name", some (Val.str s)] =
          [(pyStr ((r "name").getD (Val.str ""))).data, s.data] := by
        simp [textParts, htruthyS, hnt, pyStr]
      rw [hparts,
        show joinSp [(pyStr ((r "name").getD (Val.str ""))).data, s.data] =
          (pyStr ((r "name").getD (Val.str ""))).data ++ ' ' :: s.data from rfl,
        hlowsplit]
      exact excl_join t.data _ hmem _ _ (Or.inr hocc2)
    · rw [Bool.not_eq_true] at hnt
      have hparts : textParts [r "name", some (Val.str s)] = [s.data] := by
        simp [textParts, htruthyS, hnt, pyStr]
      rw [hparts, show joinSp [s.data] = s.data from rfl]
      exact wordAny_mono t.data _ hmem _ hocc2

/-- The record of testable property "exclusion dominance" in the spec. -/
def recTofu : Rec := fun k =>
  if k = "ingredients_text" then some (Val.str "Tofu, Hähnchengeschmack")
  else Option.none

/-- C7 witness: the spec's own example record, excluded despite the meat
ingredient term it contains. -/
theorem c7_exclusion_dominance_witness : is_meat_product recTofu = false :=
  c7_exclusion_dominance recTofu "tofu" (by decide) (Or.inr (by decide))

/-! ## C8 — last-write-wins on duplicate rating keys -/

/-- A source row that contributes an entry under `key`: its animal is
nonempty after stripping and its lowered (label, animal) pair is `key`. -/
def rowHasKey (key : String × String) (row : Row) : Bool :=
  decide (stripS row.animal ≠ "") && decide (keyOfRow row = key)

theorem find?_append {α : Type} (p : α → Bool) (l1 l2 : List α) :
    (l1 ++ l2).find? p =
      (match l1.find? p with
       | some x => some x
       | Option.none => l2.find? p) := by
  induction l1 with
  | nil => simp
  | cons a l ih =>
    by_cases h : p a = true
    · rw [List.cons_append, List.find?_cons_of_pos _ h, List.find?_cons_of_pos _ h]
    · rw [Bool.not_eq_true] at h
      rw [List.cons_append, List.find?_cons_of_neg _ (by simp [h]),
        List.find?_cons_of_neg _ (by simp [h]), ih]

theorem dget_foldl_step (key : String × String) :
    ∀ (rows : List Row) (acc : RMap),
      dget key (rows.foldl stepRow acc) =
        (match rows.reverse.find? (rowHasKey key) with
         | some row => some (entryOfRow row)
         | Option.none => dget key acc) := by
  intro rows
  induction rows with
  | nil => intro acc; simp
  | cons row rest ih =>
    intro acc
    simp only [List.foldl_cons, List.reverse_cons]
    rw [ih (stepRow acc row), find?_append]
    cases hfind : rest.reverse.find? (rowHasKey key) with
    | some x => rfl
    | none =>
      by_cases hk : rowHasKey key row = true
      · have hk2 := hk
        simp only [rowHasKey, Bool.and_eq_true, decide_eq_true_eq] at hk2
        obtain ⟨h1, h2⟩ := hk2
        rw [List.find?_cons_of_pos _ hk,
          show stepRow acc row = dinsert (keyOfRow row) (entryOfRow row) acc from by
            simp [stepRow, h1],
          h2, dget_dinsert_self]
      · rw [List.find?_cons_of_neg _ (by simpa using hk), List.find?_nil]
        by_cases h1 : stripS row.animal = ""
        · rw [show stepRow acc row = acc from by simp [stepRow, h1]]
        · have h2 : keyOfRow row ≠ key := by
            intro h2
            exact hk (by simp [rowHasKey, h1, h2])
          rw [show stepRow acc row =
              dinsert (keyOfRow row) (entryOfRow row) acc from by
            simp [stepRow, h1]]
          exact dget_dinsert_ne _ _ _ _ h2

theorem mem_keys_dinsert {κ α : Type} [DecidableEq κ] (k k2 : κ) (v : α)
    (d : List (κ × α)) (h : k2 ∈ (dinsert k v d).map Prod.fst) :
    k2 = k ∨ k2 ∈ d.map Prod.fst := by
  induction d with
  | nil => simpa [dinsert] using h
  | cons hd t ih =>
    obtain ⟨k3, v3⟩ := hd
    simp only [dinsert] at h
    by_cases h3 : k3 = k
    · rw [if_pos h3] at h
      subst h3
      rcases (by simpa using h : k2 = k3 ∨ k2 ∈ t.map Prod.fst) with h | h
      · exact Or.inl h
      · exact Or.inr (by simp [h])
    · rw [if_neg h3] at h
      rcases (by simpa using h : k2 = k3 ∨ k2 ∈ (dinsert k v t).map Prod.fst)
          with h | h
      · exact Or.inr (by simp [h])
      · rcases ih h with h | h
        · exact Or.inl h
        · exact Or.inr (by simp [h])

theorem nodup_keys_dinsert {κ α : Type} [DecidableEq κ] (k : κ) (v : α)
    (d : List (κ × α)) (h : (d.map Prod.fst).Nodup) :
    ((dinsert k v d).map Prod.fst).Nodup := by
  induction d with
  | nil => simp [dinsert]
  | cons hd t ih =>
    obtain ⟨k3, v3⟩ := hd
    simp only [List.map_cons, List.nodup_cons] at h
    obtain ⟨hnotin, hnd⟩ := h
    simp only [dinsert]
    by_cases h3 : k3 = k
    · rw [if_pos h3]
      subst h3
      simp only [List.map_cons, List.nodup_cons]
      exact ⟨hnotin, hnd⟩
    · rw [if_neg h3]
      simp only [List.map_cons, List.nodup_cons]
      refine ⟨?_, ih hnd⟩
      intro hmem
      rcases mem_keys_dinsert k k3 v t hmem with h | h
      · exact h3 h
      · exact hnotin h

theorem countP_key_of_nodup {κ α : Type} [DecidableEq κ] (k : κ)
    (d : List (κ × α)) (h : (d.map Prod.fst).Nodup) :
    d.countP (fun e => decide (e.1 = k)) =
      if (dget k d).isSome then 1 else 0 := by
  induction d with
  | nil => simp [dget]
  | cons hd t ih =>
    obtain ⟨k2, v2⟩ := hd
    simp only [List.map_cons, List.nodup_cons] at h
    obtain ⟨hnotin, hnd⟩ := h
    rw [List.countP_cons]
    by_cases h2 : k2 = k
    · subst h2
      have ht0 : t.countP (fun e => decide (e.1 = k2)) = 0 := by
        rw [List.countP_eq_zero]
        intro e he
        simp only [decide_eq_true_eq]
        intro heq
        exact hnotin (heq ▸ List.mem_map_of_mem Prod.fst he)
      simp [dget, ht0]
    · simp only [dget, if_neg h2]
      rw [ih hnd]
      simp [h2]

theorem nodup_keys_load (rows : List Row) :
    ∀ acc : RMap, (acc.map Prod.fst).Nodup →
      ((rows.foldl stepRow acc).map Prod.fst).Nodup := by
  induction rows with
  | nil => intro acc h; exact h
  | cons row rest ih =>
    intro acc h
    rw [List.foldl_cons]
    refine ih (stepRow acc row) ?_
    unfold stepRow
    by_cases h1 : stripS row.animal = ""
    · rw [if_pos h1]; exact h
    · rw [if_neg h1]
      exact nodup_keys_dinsert _ _ _ h

/-- C8: when two or more source rows share the lowered (label, animal)
key, the loaded table maps that key to the entry of the last such row in
source order (the first match over the reversed row list), and holds
exactly one entry for the key. -/
theorem c8_last_write_wins (rows : List Row) (key : String × String)
    (h2 : 2 ≤ (rows.filter (rowHasKey key)).length) :
    ∃ last, rows.reverse.find? (rowHasKey key) = some last ∧
      dget key (loadRatings (some rows)) = some (entryOfRow last) ∧
      (loadRatings (some rows)).countP (fun e => decide (e.1 = key)) = 1 := by
  have hne : rows.filter (rowHasKey key) ≠ [] := by
    intro h0
    rw [h0] at h2
    simp at h2
  obtain ⟨x, hx⟩ := List.exists_mem_of_ne_nil _ hne
  rw [List.mem_filter] at hx
  have hsome : (rows.reverse.find? (rowHasKey key)).isSome := by
    rw [List.find?_isSome]
    exact ⟨x, List.mem_reverse.2 hx.1, hx.2⟩
  obtain ⟨last, hfind⟩ := Option.isSome_iff_exists.1 hsome
  have hdget : dget key (loadRatings (some rows)) = some (entryOfRow last) := by
    unfold loadRatings
    rw [dget_foldl_step key rows [], hfind]
  refine ⟨last, hfind, hdget, ?_⟩
  have hnd : ((loadRatings (some rows)).map Prod.fst).Nodup :=
    nodup_keys_load rows [] (by simp)
  rw [countP_key_of_nodup key _ hnd, hdget]
  rfl

/-- Two rows sharing the key ("l", "poulet"). -/
def rowDup1 : Row := ⟨"L", "poulet", "TOP", "0", "", "", ""⟩

/-- The later duplicate, with a different tier and steps value. -/
def rowDup2 : Row := ⟨"L ", "Poulet", "NO GO", "3", "", "", ""⟩

/-- C8 witness: the duplicate-key theorem at a concrete two-row source. -/
theorem c8_last_write_wins_witness :
    ∃ last, [rowDup1, rowDup2].reverse.find? (rowHasKey ("l", "poulet")) =
        some last ∧
      dget ("l", "poulet") (loadRatings (some [rowDup1, rowDup2])) =
        some (entryOfRow last) ∧
      (loadRatings (some [rowDup1, rowDup2])).countP
        (fun e => decide (e.1 = ("l", "poulet"))) = 1 :=
  c8_last_write_wins [rowDup1, rowDup2] ("l", "poulet") (by decide)

/-! ## C10 — classifier closed-set and confidence invariant -/

theorem animal_rule_values : ∀ p ∈ ANIMAL_RULES, p.2 ∈ ALLOWED_ANIMALS := by
  intro p hp
  fin_cases hp <;> decide

theorem label_rule_values : ∀ p ∈ LABEL_RULES, p.2 ∈ ALLOWED_LABELS := by
  intro p hp
  fin_cases hp <;> decide

/-- What a successful rule pass can return: each present tag is a rule
value (hence in the closed set), and at least one axis is present. -/
theorem apply_rules_values (r : Rec) (a? l? : Option String)
    (h : apply_simple_rules true r = some (some (a?, l?))) :
    (∀ a, a? = some a → a ∈ ALLOWED_ANIMALS) ∧
    (∀ l, l? = some l → l ∈ ALLOWED_LABELS) ∧
    (a?.isSome = true ∨ l?.isSome = true) := by
  cases ht : ruleText r with
  | none =>
    simp only [apply_simple_rules, ht,
      if_neg (by decide : ¬(true = false))] at h
    exact absurd h (by simp)
  | some txt =>
    simp only [apply_simple_rules, ht, if_neg (by decide : ¬(true = false))] at h
    cases hfa : ANIMAL_RULES.find? (fun p => p.1 (lowL txt)) with
    | none =>
      cases hfl : LABEL_RULES.find? (fun p => p.1 (lowL txt)) with
      | none =>
        rw [hfa, hfl] at h
        exact absurd h (by simp)
      | some pl =>
        rw [hfa, hfl] at h
        simp only [Option.map_some', Option.map_none', Option.some.injEq,
          Prod.mk.injEq] at h
        obtain ⟨h1, h2⟩ := h
        subst h1
        subst h2
        refine ⟨?_, ?_, Or.inr rfl⟩
        · intro a haa
          exact absurd haa (by simp)
        · intro l hll
          have hw := Option.some.inj hll
          exact hw ▸ label_rule_values pl (List.mem_of_find?_eq_some hfl)
    | some pa =>
      cases hfl : LABEL_RULES.find? (fun p => p.1 (lowL txt)) with
      | none =>
        rw [hfa, hfl] at h
        simp only [Option.map_some', Option.map_none', Option.some.injEq,
          Prod.mk.injEq] at h
        obtain ⟨h1, h2⟩ := h
        subst h1
        subst h2
        refine ⟨?_, ?_, Or.inl rfl⟩
        · intro a haa
          have hw := Option.some.inj haa
          exact hw ▸ animal_rule_values pa (List.mem_of_find?_eq_some hfa)
        · intro l hll
          exact absurd hll (by simp)
      | some pl =>
        rw [hfa, hfl] at h
        simp only [Option.map_some', Option.some.injEq, Prod.mk.injEq] at h
        obtain ⟨h1, h2⟩ := h
        subst h1
        subst h2
        refine ⟨?_, ?_, Or.inl rfl⟩
        · intro a haa
          have hw := Option.some.inj haa
          exact hw ▸ animal_rule_values pa (List.mem_of_find?_eq_some hfa)
        · intro l hll
          have hw := Option.some.inj hll
          exact hw ▸ label_rule_values pl (List.mem_of_find?_eq_some hfl)

/-- C10: with simple rules enabled (and no oracle in the current code), a
successful classification always yields an animal in the closed animal
set, a label in the closed label set, and a confidence that is exactly
0.9 when both rule axes matched, 0.7 when exactly one matched, and 0.1
when neither matched. -/
theorem c10_classifier_invariant (r : Rec) (res : ClassificationResult)
    (h : classify_product true r = some res) :
    res.animal ∈ ALLOWED_ANIMALS ∧ res.label ∈ ALLOWED_LABELS ∧
    ((∃ a l, apply_simple_rules true r = some (some (some a, some l)) ∧
        res.confidence = 9 / 10) ∨
     (∃ a, apply_simple_rules true r = some (some (some a, Option.none)) ∧
        res.confidence = 7 / 10) ∨
     (∃ l, apply_simple_rules true r = some (some (Option.none, some l)) ∧
        res.confidence = 7 / 10) ∨
     (apply_simple_rules true r = some Option.none ∧
        res.confidence = 1 / 10)) := by
  unfold classify_product at h
  cases ha : apply_simple_rules true r with
  | none =>
    rw [ha] at h
    exact absurd h (by simp)
  | some rr =>
    rw [ha, Option.map_some'] at h
    replace h := Option.some.inj h
    cases rr with
    | none =>
      subst h
      exact ⟨(by decide : ("unknown" : String) ∈ ALLOWED_ANIMALS),
        (by decide : ("unknown" : String) ∈ ALLOWED_LABELS),
        Or.inr (Or.inr (Or.inr ⟨rfl, rfl⟩))⟩
    | some pair =>
      obtain ⟨a?, l?⟩ := pair
      have hvals := apply_rules_values r a? l? ha
      cases a? with
      | some a =>
        cases l? with
        | some l =>
          subst h
          exact ⟨hvals.1 a rfl, hvals.2.1 l rfl, Or.inl ⟨a, l, rfl, rfl⟩⟩
        | none =>
          subst h
          exact ⟨hvals.1 a rfl,
            (by decide : ("unknown" : String) ∈ ALLOWED_LABELS),
            Or.inr (Or.inl ⟨a, rfl, rfl⟩)⟩
      | none =>
        cases l? with
        | some l =>
          subst h
          exact ⟨(by decide : ("unknown" : String) ∈ ALLOWED_ANIMALS),
            hvals.2.1 l rfl, Or.inr (Or.inr (Or.inl ⟨l, rfl, rfl⟩))⟩
        | none =>
          rcases hvals.2.2 with h3 | h3 <;> simp at h3

/-- C10 witness: the invariant at the scenario-3 record, a partial match
with confidence 0.7. -/
theorem c10_classifier_invariant_witness :
    ("poulet" : String) ∈ ALLOWED_ANIMALS ∧
    ("unknown" : String) ∈ ALLOWED_LABELS ∧
    ((∃ a l, apply_simple_rules true recPoulet =
        some (some (some a, some l)) ∧ (7 : ℚ) / 10 = 9 / 10) ∨
     (∃ a, apply_simple_rules true recPoulet =
        some (some (some a, Option.none)) ∧ (7 : ℚ) / 10 = 7 / 10) ∨
     (∃ l, apply_simple_rules true recPoulet =
        some (some (Option.none, some l)) ∧ (7 : ℚ) / 10 = 7 / 10) ∨
     (apply_simple_rules true recPoulet = some Option.none ∧
        (7 : ℚ) / 10 = 1 / 10)) :=
  c10_classifier_invariant recPoulet ⟨"poulet", "unknown", 7 / 10, partReason⟩ rfl

/-! ## C9 — stages copy records, preserving all non-stage fields -/

/-- The per-record frame relation of the classify stage: every key off the
stage's field list keeps its exact input value (present or absent), and
the stage's always-added fields are present. -/
def relC (r r2 : Rec) : Prop :=
  (∀ k, k ∉ classKeys → r2 k = r k) ∧
  (∀ k, k ∈ classKeys → (r2 k).isSome = true)

/-- The per-record frame relation of the mapping stage. -/
def relM (r r2 : Rec) : Prop :=
  (∀ k, k ∉ mapKeys → r2 k = r k) ∧
  (∀ k, k ∈ mapKeys3 → (r2 k).isSome = true)

theorem classifyUpd_rel (r : Rec) (res : ClassificationResult) :
    relC r (classifyUpd r res) := by
  constructor
  · intro k hk
    simp only [classKeys, List.mem_cons, List.not_mem_nil, or_false,
      not_or] at hk
    obtain ⟨h1, h2, h3, h4⟩ := hk
    simp [classifyUpd, h1, h2, h3, h4]
  · intro k hk
    fin_cases hk <;> simp [classifyUpd]

theorem mapUpdMiss_rel (r : Rec) (st : String) : relM r (mapUpdMiss r st) := by
  constructor
  · intro k hk
    simp only [mapKeys, List.mem_cons, List.not_mem_nil, or_false,
      not_or] at hk
    obtain ⟨h1, h2, h3, h4, h5⟩ := hk
    simp [mapUpdMiss, h1, h2, h3]
  · intro k hk
    fin_cases hk <;> simp [mapUpdMiss]

theorem mapUpdHit_rel (r : Rec) (e : Entry) : relM r (mapUpdHit r e) := by
  constructor
  · intro k hk
    simp only [mapKeys, List.mem_cons, List.not_mem_nil, or_false,
      not_or] at hk
    obtain ⟨h1, h2, h3, h4, h5⟩ := hk
    simp [mapUpdHit, h1, h2, h3, h4, h5]
  · intro k hk
    fin_cases hk <;> simp [mapUpdHit]

theorem classifyOne_rel (r r2 : Rec) (h : classifyOne r = some r2) :
    relC r r2 ∧ (∃ s, r2 "classified_animal" = some (Val.str s)) ∧
      (∃ s, r2 "classified_label" = some (Val.str s)) := by
  unfold classifyOne at h
  cases hc : classify_product true r with
  | none =>
    rw [hc] at h
    exact absurd h (by simp)
  | some res =>
    rw [hc, Option.map_some'] at h
    replace h := Option.some.inj h
    subst h
    refine ⟨classifyUpd_rel r res, ⟨res.animal, ?_⟩, ⟨res.label, ?_⟩⟩
    · simp [classifyUpd]
    · simp [classifyUpd]

theorem mapOne_rel (rm : RMap) (r r2 : Rec) (h : mapOne rm r = some r2) :
    relM r r2 := by
  unfold mapOne at h
  by_cases hl : (r "classified_label").getD (Val.str "unknown") =
      Val.str "unknown"
  · rw [if_pos hl] at h
    replace h := Option.some.inj h
    subst h
    exact mapUpdMiss_rel r "no_label"
  · rw [if_neg hl] at h
    cases hna : normAnimalVal ((r "classified_animal").getD (Val.str "unknown")) with
    | none =>
      simp only [hna] at h
      exact absurd h (by simp)
    | some na =>
      simp only [hna] at h
      cases hnl : normLabelVal rm ((r "classified_label").getD (Val.str "unknown")) with
      | none =>
        simp only [hnl] at h
        exact absurd h (by simp)
      | some nl =>
        simp only [hnl] at h
        cases nl with
        | none =>
          simp only [Option.some.injEq] at h
          subst h
          exact mapUpdMiss_rel r "no_rating"
        | some nlv =>
          cases hr : dget (lowS nlv, lowS na) rm with
          | none =>
            simp only [hr, Option.some.injEq] at h
            subst h
            exact mapUpdMiss_rel r "no_rating"
          | some e =>
            simp only [hr, Option.some.injEq] at h
            subst h
            exact mapUpdHit_rel r e

theorem mapOne_isSome (rm : RMap) (r : Rec)
    (ha : ∃ s, r "classified_animal" = some (Val.str s))
    (hl : ∃ s, r "classified_label" = some (Val.str s)) :
    (mapOne rm r).isSome = true := by
  obtain ⟨sa, ha⟩ := ha
  obtain ⟨sl, hl⟩ := hl
  unfold mapOne
  simp only [ha, hl, Option.getD_some]
  by_cases h0 : Val.str sl = Val.str "unknown"
  · rw [if_pos h0]
    rfl
  · rw [if_neg h0]
    simp only [normAnimalVal, normLabelVal]
    cases hnl : normalize_label rm sl with
    | none => rfl
    | some nlv =>
      cases hr : dget (lowS nlv, lowS (normalize_animal sa)) rm with
      | none => simp [hr]
      | some e => simp [hr]

theorem classifyOne_isSome (r : Rec) (h : (ruleText r).isSome = true) :
    (classifyOne r).isSome = true := by
  unfold classifyOne classify_product apply_simple_rules
  rw [if_neg (by decide : ¬(true = false))]
  cases ht : ruleText r with
  | none =>
    rw [ht] at h
    simp at h
  | some txt =>
    cases hfa : ANIMAL_RULES.find? (fun p => p.1 (lowL txt)) with
    | none =>
      cases hfl : LABEL_RULES.find? (fun p => p.1 (lowL txt)) with
      | none => simp [hfa, hfl]
      | some pl => simp [hfa, hfl]
    | some pa =>
      cases hfl : LABEL_RULES.find? (fun p => p.1 (lowL txt)) with
      | none => simp [hfa, hfl]
      | some pl => simp [hfa, hfl]

theorem mapO_forall (f : Rec → Option Rec) (P : Rec → Rec → Prop)
    (hf : ∀ r r2, f r = some r2 → P r r2) :
    ∀ (ps out : List Rec), mapO f ps = some out →
      out.length = ps.length ∧ List.Forall₂ P ps out := by
  intro ps
  induction ps with
  | nil =>
    intro out h
    unfold mapO at h
    replace h := Option.some.inj h
    subst h
    exact ⟨rfl, List.Forall₂.nil⟩
  | cons r rs ih =>
    intro out h
    unfold mapO at h
    cases hr : f r with
    | none =>
      rw [hr] at h
      simp at h
    | some r2 =>
      rw [hr] at h
      cases hrs : mapO f rs with
      | none =>
        rw [hrs] at h
        simp at h
      | some out2 =>
        rw [hrs] at h
        replace h := Option.some.inj h
        subst h
        obtain ⟨hlen, hfa⟩ := ih out2 hrs
        exact ⟨by simp [hlen], List.Forall₂.cons (hf r r2 hr) hfa⟩

theorem mapO_total (f : Rec → Option Rec) :
    ∀ ps : List Rec, (∀ r ∈ ps, (f r).isSome = true) →
      (mapO f ps).isSome = true := by
  intro ps
  induction ps with
  | nil => intro _; rfl
  | cons r rs ih =>
    intro h
    unfold mapO
    cases hr : f r with
    | none =>
      have := h r (List.mem_cons_self r rs)
      rw [hr] at this
      simp at this
    | some r2 =>
      cases hrs : mapO f rs with
      | none =>
        have := ih fun x hx => h x (List.mem_cons_of_mem r hx)
        rw [hrs] at this
        simp at this
      | some out2 => rfl

theorem forall₂_mem_right {P : Rec → Rec → Prop} :
    ∀ {l1 l2 : List Rec}, List.Forall₂ P l1 l2 →
      ∀ y ∈ l2, ∃ x ∈ l1, P x y := by
  intro l1 l2 h
  induction h with
  | nil =>
    intro y hy
    simp at hy
  | @cons a b l1x l2x hp hrest ih =>
    intro y hy
    rcases List.mem_cons.1 hy with rfl | hy
    · exact ⟨a, List.mem_cons_self a l1x, hp⟩
    · obtain ⟨x, hx, hpx⟩ := ih y hy
      exact ⟨x, List.mem_cons_of_mem _ hx, hpx⟩

/-- C9: neither pipeline stage mutates its input — in this embedding each
stage builds a new record per input record — and for every benign batch
(the only failure mode of the classify stage is a non-string, non-missing
ingredients value): the classify stage returns a same-length, same-order
list where each output record keeps every non-stage key of its input
exactly and carries the four added classification fields; the mapping
stage then does the same for its up-to-five rating fields, its three
always-added ones present. -/
theorem c9_no_mutation (ps : List Rec) (rm : RMap)
    (hben : ∀ r ∈ ps, (ruleText r).isSome = true) :
    ∃ out1 out2,
      classify_products ps = some out1 ∧
      out1.length = ps.length ∧ List.Forall₂ relC ps out1 ∧
      map_products_to_ratings rm out1 = some out2 ∧
      out2.length = out1.length ∧ List.Forall₂ relM out1 out2 := by
  have h1 : (classify_products ps).isSome = true :=
    mapO_total classifyOne ps fun r hr => classifyOne_isSome r (hben r hr)
  obtain ⟨out1, hout1⟩ := Option.isSome_iff_exists.1 h1
  have hfa1 := mapO_forall classifyOne
    (fun r r2 => relC r r2 ∧ (∃ s, r2 "classified_animal" = some (Val.str s)) ∧
      (∃ s, r2 "classified_label" = some (Val.str s)))
    classifyOne_rel ps out1 hout1
  have h2 : (map_products_to_ratings rm out1).isSome = true := by
    refine mapO_total (mapOne rm) out1 fun r2 hr2 => ?_
    obtain ⟨x, hx, hpx⟩ := forall₂_mem_right hfa1.2 r2 hr2
    exact mapOne_isSome rm r2 hpx.2.1 hpx.2.2
  obtain ⟨out2, hout2⟩ := Option.isSome_iff_exists.1 h2
  have hfa2 := mapO_forall (mapOne rm) relM (mapOne_rel rm) out1 out2 hout2
  exact ⟨out1, out2, hout1, hfa1.1, hfa1.2.imp fun a b h => h.1, hout2,
    hfa2.1, hfa2.2⟩

/-- C9 witness: the scenario-3 record through both stages against the
empty table. -/
theorem c9_no_mutation_witness :
    ∃ out1 out2,
      classify_products [recPoulet] = some out1 ∧
      out1.length = [recPoulet].length ∧ List.Forall₂ relC [recPoulet] out1 ∧
      map_products_to_ratings [] out1 = some out2 ∧
      out2.length = out1.length ∧ List.Forall₂ relM out1 out2 :=
  c9_no_mutation [recPoulet] [] (by
    intro r hr
    rw [List.mem_singleton] at hr
    subst hr
    rfl)

/-! ## C4 — oracle-response extraction -/

theorem dropWhile_append_all {α : Type} (p : α → Bool) (l x : List α)
    (h : ∀ a ∈ l, p a = true) : (l ++ x).dropWhile p = x.dropWhile p := by
  induction l with
  | nil => rfl
  | cons a l2 ih =>
    rw [List.cons_append, List.dropWhile_cons,
      if_pos (h a (List.mem_cons_self a l2))]
    exact ih fun b hb => h b (List.mem_cons_of_mem a hb)

/-- The greedy `\x7b.*\x7d` extraction on leading commentary without an
opening brace, a brace-delimited span, and trailing commentary without a
closing brace returns exactly the span. -/
theorem extractSpan_sandwich (l body t : List Char)
    (hl : ∀ c ∈ l, c ≠ '{') (ht : ∀ c ∈ t, c ≠ '}') :
    extractSpan (l ++ ('{' :: body ++ ['}']) ++ t) =
      some ('{' :: body ++ ['}']) := by
  simp only [extractSpan]
  have h1 : (l ++ ('{' :: body ++ ['}']) ++ t).dropWhile (fun c => c ≠ '{') =
      '{' :: (body ++ ['}'] ++ t) := by
    rw [List.append_assoc,
      dropWhile_append_all _ l _ (fun a ha => by simpa using hl a ha),
      show ('{' :: body ++ ['}']) ++ t = '{' :: (body ++ ['}'] ++ t) from by
        simp,
      List.dropWhile_cons, if_neg (by simp)]
  rw [h1]
  have h2 : ('{' :: (body ++ ['}'] ++ t)).reverse =
      t.reverse ++ '}' :: (body.reverse ++ ['{']) := by
    simp
  rw [h2,
    dropWhile_append_all _ t.reverse _ (fun a ha => by
      simp only [List.mem_reverse] at ha
      simpa using ht a ha)]
  have h3 : List.dropWhile (fun c => decide (c ≠ '}'))
      ('}' :: (body.reverse ++ ['{'])) = '}' :: (body.reverse ++ ['{']) := by
    rw [List.dropWhile_cons, if_neg (by simp)]
  rw [h3, if_pos (by simp)]
  congr 1
  simp

/-- C4 (amended): with leading commentary free of opening braces and
trailing commentary free of closing braces, the parser's result is exactly
the result of parsing the brace-delimited span (the greedy regex takes the
text from the first opening to the last closing brace): a span that loads
as a JSON object with the four required fields, string animal and label
and a convertible confidence yields a ClassificationResult with the
case-folded closed-set validation applied; the response is rejected
(None) when the span does not load as a JSON object or when a required
field is absent. -/
theorem c4_span_extraction (l body t : List Char)
    (hl : ∀ c ∈ l, c ≠ '{') (ht : ∀ c ∈ t, c ≠ '}') :
    (parse_llm_response (l ++ ('{' :: body ++ ['}']) ++ t) =
      parseSpan ('{' :: body ++ ['}'])) ∧
    (∀ d a lb cv q vr,
      jsonLoads ('{' :: body ++ ['}']) = some (JVal.jobj d) →
      jGet d "animal".data = some (JVal.jstr a) →
      jGet d "label".data = some (JVal.jstr lb) →
      jGet d "confidence".data = some cv →
      jGet d "reasoning".data = some vr →
      pyFloat cv = some q →
      parse_llm_response (l ++ ('{' :: body ++ ['}']) ++ t) =
        PResult.ok
          ⟨String.mk (if (ALLOWED_ANIMALS.map String.data).contains (lowL a)
              then lowL a else "unknown".data),
           String.mk (if (ALLOWED_LABELS.map String.data).contains (lowL lb)
              then lowL lb else "unknown".data),
           q, pyStrJ vr⟩) ∧
    ((∀ d, jsonLoads ('{' :: body ++ ['}']) ≠ some (JVal.jobj d)) →
      parse_llm_response (l ++ ('{' :: body ++ ['}']) ++ t) = PResult.rej) ∧
    (∀ d, jsonLoads ('{' :: body ++ ['}']) = some (JVal.jobj d) →
      (requiredFields.all fun k => (jGet d k).isSome) = false →
      parse_llm_response (l ++ ('{' :: body ++ ['}']) ++ t) = PResult.rej) := by
  have hA : parse_llm_response (l ++ ('{' :: body ++ ['}']) ++ t) =
      parseSpan ('{' :: body ++ ['}']) := by
    unfold parse_llm_response
    rw [extractSpan_sandwich l body t hl ht]
  refine ⟨hA, ?_, ?_, ?_⟩
  · intro d a lb cv q vr hj ha2 hl2 hc2 hr2 hq
    rw [hA]
    have hall : (requiredFields.all fun k => (jGet d k).isSome) = true := by
      simp [requiredFields, ha2, hl2, hc2, hr2]
    simp only [parseSpan, hj]
    rw [if_pos hall, ha2, hl2, hc2, hr2]
    simp only [hq]
  · intro hno
    rw [hA]
    unfold parseSpan
    cases hj : jsonLoads ('{' :: body ++ ['}']) with
    | none => rfl
    | some v =>
      cases v with
      | jobj d => exact absurd hj (hno d)
      | jstr s => rfl
      | jnum q2 => rfl
      | jbool b => rfl
      | jnull => rfl
      | jarr xs => rfl
  · intro d hj hfalse
    rw [hA]
    simp only [parseSpan, hj]
    rw [if_neg (by simp [hfalse])]

/-- A well-formed oracle response alone. -/
def jsonGood : List Char :=
  "\x7b\"animal\": \"poulet\", \"label\": \"unknown\", \"confidence\": 0.9, \"reasoning\": \"ok\"\x7d".data

/-- The same response with commentary around it whose trailing part
contains a closing brace (a smiley). -/
def cex4 : List Char :=
  "Sure! ".data ++ jsonGood ++ " Hope that helps :\x7d".data

/-- A response whose four fields are present but whose confidence is a
non-numeric string. -/
def cexConf : List Char :=
  "\x7b\"animal\": \"poulet\", \"label\": \"unknown\", \"confidence\": \"high\", \"reasoning\": \"ok\"\x7d".data

/-- C4 counterexample: the very JSON object the code accepts on its own is
rejected once trailing commentary contains a closing brace — the greedy
regex extends the span past the object — so "arbitrary trailing
commentary" does not hold; and a response with all four fields present is
rejected when the confidence is unusable, so None does not occur *exactly*
on parse failure or a missing field. -/
theorem c4_counterexample :
    parse_llm_response cex4 = PResult.rej ∧
    (∃ q : ℚ, parse_llm_response jsonGood =
      PResult.ok ⟨"poulet", "unknown", q, "ok"⟩) ∧
    parse_llm_response cexConf = PResult.rej := by
  refine ⟨by decide, ⟨_, rfl⟩, by decide⟩

/-- Leading commentary without an opening brace. -/
def lNote : List Char := "Note: ".data

/-- A four-field object body. -/
def bodyW : List Char :=
  "\"animal\": \"poulet\", \"label\": \"unknown\", \"confidence\": 0.9, \"reasoning\": \"ok\"".data

/-- Trailing commentary without a closing brace. -/
def tDone : List Char := " Done.".data

/-- C4 witness: the span-determination conjunct at a concrete sandwiched
response. -/
theorem c4_span_extraction_witness :
    parse_llm_response (lNote ++ ('{' :: bodyW ++ ['}']) ++ tDone) =
      parseSpan ('{' :: bodyW ++ ['}']) :=
  (c4_span_extraction lNote bodyW tDone (by decide) (by decide)).1

end EthicalMeat
